import Mathlib

/-!
Verification of the kdbpy blaze-to-Q translation core
(src/kdbpy/compute/core.py).

The target AST (the q module) is external to the provided sources, so its
value types and builder functions are modelled from the specification's
description of the Target AST; the translation rules themselves are
transcribed from core.py.
-/

set_option maxHeartbeats 1000000

mutual

/-- Modelled from the spec: the Target AST value types (Atom, Symbol with
is_partitioned and is_splayed flags and field metadata, Bool, raw numbers and
strings that appear inside built lists, List, Dict, and the four-slot Select
node).  The q module defining these classes is not among the provided
sources. -/
inductive QExpr : Type where
  | atom (s : String)
  | symbol (s : String) ( is_partitioned is_splayed : Bool) (fields : List String)
  | bool (b : Bool)
  | num (n : Int)
  | str (s : String)
  | list (xs : QExprList)
  | dict (ps : QPairList)
  | select (child constraints grouper aggregates : QExpr)
  deriving DecidableEq

inductive QExprList : Type where
  | nil
  | cons (x : QExpr) (xs : QExprList)
  deriving DecidableEq

inductive QPairList : Type where
  | nil
  | cons (k v : QExpr) (ps : QPairList)
  deriving DecidableEq

end

/-- Convert an ordinary Lean list of expressions into a QExprList. -/
def ql : List QExpr → QExprList
  | [] => .nil
  | x :: xs => .cons x (ql xs)

/-- Convert an ordinary Lean list of pairs into a QPairList. -/
def qp : List (QExpr × QExpr) → QPairList
  | [] => .nil
  | (k, v) :: ps => .cons k v (qp ps)

namespace QExprList

def length : QExprList → Nat
  | .nil => 0
  | .cons _ xs => xs.length + 1

end QExprList

/-- From core.py, function get: return the only element of a one-element
q.List, otherwise return the value unchanged. -/
def get : QExpr → QExpr
  | .list (.cons x .nil) => x
  | e => e

/-- Split a character list at its first dot, if any. -/
def splitCharsOnce : List Char → Option (List Char × List Char)
  | [] => none
  | c :: cs =>
    if c = '.' then some ([], cs)
    else
      match splitCharsOnce cs with
      | some (a, b) => some (c :: a, b)
      | none => none

/-- Python s.split(sep, 1) with a dot separator: split a string at its first
dot, if any. -/
def splitOnce (s : String) : Option (String × String) :=
  match splitCharsOnce s.data with
  | some (a, b) => some (⟨a⟩, ⟨b⟩)
  | none => none

/-- From core.py, compute_atom: if the atom's name is dotted and its first
component equals the scope name, rebuild the atom (with default flags, as
Python type(atom)(...) does) from the remainder; otherwise return the atom
unchanged.  Non-atoms pass through. -/
def compute_atom : QExpr → String → QExpr
  | .atom s, t =>
    match splitOnce s with
    | some (a, b) => if a = t then .atom b else .atom s
    | none => .atom s
  | .symbol s p sp f, t =>
    match splitOnce s with
    | some (a, b) => if a = t then .symbol b false false [] else .symbol s p sp f
    | none => .symbol s p sp f
  | e, _ => e

mutual

/-- From core.py, desubs and its helper generator _desubs: remove the table
scope t from a target fragment.  Atoms are rewritten by compute_atom; strings,
numbers and q Booleans pass through; a Select is rebuilt from its four slots
with the question-mark marker dropped (the result_type trick in desubs); a
List is rebuilt from its processed elements and then unwrapped by get when it
has exactly one element.  Iteration of a q.Dict is not visible in core.py, so
the top-level Dict case is modelled from the spec: Lists and Dicts recurse
structurally, preserving order and key-value pairing. -/
def desubs (e : QExpr) (t : String) : QExpr :=
  match e with
  | .atom s => compute_atom (.atom s) t
  | .symbol s p sp f => compute_atom (.symbol s p sp f) t
  | .bool b => .bool b
  | .num n => .num n
  | .str s => .str s
  | .list xs => get (.list (desubsItems xs t))
  | .dict ps => .dict (desubsPairs ps t)
  | .select c k g a =>
    .select (desubsItem c t) (desubsItem k t) (desubsItem g t) (desubsItem a t)
termination_by structural e

def desubsItem (e : QExpr) (t : String) : QExpr :=
  match e with
  | .atom s => compute_atom (.atom s) t
  | .symbol s p sp f => compute_atom (.symbol s p sp f) t
  | .list xs => .list (desubsList xs t)
  | .dict ps => .dict (desubsPairs ps t)
  | e => e
termination_by structural e

def desubsItems (xs : QExprList) (t : String) : QExprList :=
  match xs with
  | .nil => .nil
  | .cons x xs => .cons (desubsItem x t) (desubsItems xs t)
termination_by structural xs

def desubsList (xs : QExprList) (t : String) : QExprList :=
  match xs with
  | .nil => .nil
  | .cons x xs => .cons (desubs x t) (desubsList xs t)
termination_by structural xs

def desubsPairs (ps : QPairList) (t : String) : QPairList :=
  match ps with
  | .nil => .nil
  | .cons k v ps => .cons (desubs k t) (desubs v t) (desubsPairs ps t)
termination_by structural ps

end

namespace q

/-- Modelled from the spec: the q minimum operator on two arguments; core.py's
own comment states that the ampersand is min for 2 arguments. -/
def and_ (a b : QExpr) : QExpr := .list (ql [.atom "&", a, b])

/-- Modelled from the spec: q addition. -/
def add (a b : QExpr) : QExpr := .list (ql [.atom "+", a, b])

/-- Modelled from the spec: q subtraction. -/
def sub (a b : QExpr) : QExpr := .list (ql [.atom "-", a, b])

/-- Modelled from the spec: q modulus. -/
def mod (a b : QExpr) : QExpr := .list (ql [.atom "mod", a, b])

/-- Modelled from the spec: cast to a long integer. -/
def long (a : QExpr) : QExpr := .list (ql [.atom "long", a])

/-- Modelled from the spec: til n enumerates 0 up to n excluded. -/
def til (a : QExpr) : QExpr := .list (ql [.atom "til", a])

/-- Modelled from the spec: the ordinary q take primitive. -/
def take (n x : QExpr) : QExpr := .list (ql [.atom "#", n, x])

/-- Modelled from the spec: the partition-aware take variant used for
partitioned tables. -/
def partake (x i : QExpr) : QExpr := .list (ql [.atom "partake", x, i])

/-- Modelled from the spec: the q row-count primitive. -/
def count (x : QExpr) : QExpr := .list (ql [.atom "count", x])

/-- Modelled from the spec: a list of q symbols built from column names,
used to parameterize the equi-join primitive. -/
def symlist (names : List String) : QExpr :=
  .list (ql (names.map (fun n => .symbol n false false [])))

/-- Modelled from the spec: an entry of the unary-operator table.  The table's
individual renamings are not specified, so the operator name is kept. -/
def unop (sym : String) (data : QExpr) : QExpr := .list (ql [.atom sym, data])

end q

/-- Modelled from the spec: member access on a q expression (Python
data[attr]).  On a named reference it produces the dotted symbol
scope.member; otherwise it renders as application of the value to the member
symbol. -/
def qindex (data : QExpr) (attr : String) : QExpr :=
  match data with
  | .symbol s _ _ _ => .symbol (s ++ "." ++ attr) false false []
  | e => .list (ql [e, .symbol attr false false []])

/-- The fields attribute of a translated fragment: Python
getattr(data, 'fields', ()).  Only named table references carry fields. -/
def qfields : QExpr → List String
  | .symbol _ _ _ f => f
  | _ => []

/-- The s attribute of an atom or named reference (its name). -/
def sOf : QExpr → String
  | .atom s => s
  | .symbol s _ _ _ => s
  | _ => ""

def isSelect : QExpr → Bool
  | .select _ _ _ _ => true
  | _ => false

/-- The is_partitioned flag of a translated fragment; a property of the
underlying physical table symbol, false elsewhere. -/
def is_partitioned : QExpr → Bool
  | .symbol _ p _ _ => p
  | _ => false

/-- Errors raised synchronously by the translation rules.  core.py raises
NotImplementedError, ValueError or AssertionError; the spec's error taxonomy
names them all UnsupportedOperation.  Attribute errors model Python attribute
accesses that have no translation-rule meaning. -/
inductive QError : Type where
  | unsupported (msg : String)
  | attributeError (msg : String)
  deriving DecidableEq

/-- From core.py, the row-count fragment produced for a translated child: the
count branch of compute_down for nelements at the leading axis.  A bare table
reference that has named fields is counted through a fresh symbol naming it;
anything else is counted directly. -/
def nrowsQ (data : QExpr) : QExpr :=
  if qfields data ≠ [] ∧ isSelect data = false then
    q.count (.symbol (sOf data) false false [])
  else q.count data

/-- From core.py, compute_down for nelements: any axis other than the leading
axis is rejected; otherwise the row count fragment is produced. -/
def nelements_compute_down (axis : List Nat) (data : QExpr) : Except QError QExpr :=
  if axis ≠ [0] then .error (.unsupported "axis == 1 not supported on record types")
  else .ok (nrowsQ data)

/-- From core.py, compute_up for Reduction: any axis other than the leading
axis is rejected; otherwise the reduction translates through the
unary-operator table. -/
def reduction_compute_up (sym : String) (axis : List Nat) (data : QExpr) :
    Except QError QExpr :=
  if axis ≠ [0] then
    .error (.unsupported "Axis keyword arugment on reductions not supported")
  else .ok (q.unop sym data)

/-- From core.py, compute_up for Head: clamp the requested count n with the
child's row count (ampersand is min), then take; a partitioned table uses the
partition-aware take over til of the clamped count. -/
def head_compute_up (n : Int) (data : QExpr) : QExpr :=
  let final_index := q.and_ (.num n) (nrowsQ data)
  if is_partitioned data then q.partake data (q.til final_index)
  else q.take final_index data

/-- From core.py, compute_up for Minute: the minute field cast to long, mod
60, bypassing the native minute accessor. -/
def minute_compute_up (data : QExpr) : QExpr :=
  q.mod (q.long (qindex data "minute")) (.num 60)

/-- From core.py, compute_up for Join: only inner joins on identically named
columns are supported; otherwise the equi-join primitive is produced over the
shared key column list and the two translated operands in order. -/
def join_compute_up (how : String) (on_left on_right : List String)
    (lhs rhs : QExpr) : Except QError QExpr :=
  if how ≠ "inner" then .error (.unsupported "only inner joins supported")
  else if on_left ≠ on_right then
    .error (.unsupported "can only join on same named columns")
  else .ok (.list (ql [.str "ej", q.symlist on_left, lhs, rhs]))

/-- From core.py, compute_up for By: when the translated child is already a
Select its child and constraints are reused, otherwise the fragment itself
becomes the child with empty constraints; the grouper is a one-entry mapping;
the aggregates are extracted from the translated apply fragment (a Python
attribute access that requires a Select); the combined Select is passed
through symbol substitution with the child's name as scope.  The translations
of the grouper and apply sub-expressions are taken as parameters gq and aq,
both functions of the scope they are computed against. -/
def by_compute_up (data : QExpr) (gname : String) (gq aq : QExpr → QExpr) :
    Except QError QExpr :=
  let cd : QExpr × QExpr :=
    match data with
    | .select c k _ _ => (c, k)
    | _ => (data, .list .nil)
  let child := cd.1
  let constraints := cd.2
  let grouper : QExpr := .dict (qp [(.symbol gname false false [], gq child)])
  match aq child with
  | .select _ _ _ ag =>
    match child with
    | .atom s => .ok (desubs (.select child (.list (ql [constraints])) grouper ag) s)
    | .symbol s _ _ _ =>
      .ok (desubs (.select child (.list (ql [constraints])) grouper ag) s)
    | _ => .error (.attributeError "child fragment has no name attribute")
  | _ => .error (.attributeError "translated apply fragment has no aggregates")

/-- A single slice dimension: either one integer index or one range with
optional start and stop bounds. -/
inductive SliceIx : Type where
  | idx (i : Int)
  | rng (start stop : Option Int)
  deriving DecidableEq

/-- From core.py, compute_slice on an integral index: a negative index is
normalized by adding the row count; the indexed child is additionally wrapped
in an enlist when the result shape is a record. -/
def compute_slice_int (i : Int) (child nrowsE : QExpr) (isrec : Bool) : QExpr :=
  let ix : QExpr := if i < 0 then q.add (.num i) nrowsE else .num i
  let qexpr : QExpr := .list (ql [child, ix])
  if isrec = false then qexpr else .list (ql [.str ",:", qexpr])

/-- From core.py, compute_slice on a range: a falsy start (missing or zero)
defaults to 0 and a falsy stop (missing or zero) defaults to the row count
fragment; a negative bound is normalized by adding the row count; the result
applies the child to start plus til of stop minus start. -/
def compute_slice_rng (a b : Option Int) (child nrowsE : QExpr) : QExpr :=
  let start : QExpr :=
    match a with
    | none => .num 0
    | some i => if i = 0 then .num 0 else if i < 0 then q.add (.num i) nrowsE else .num i
  let stop : QExpr :=
    match b with
    | none => nrowsE
    | some i => if i = 0 then nrowsE else if i < 0 then q.add (.num i) nrowsE else .num i
  .list (ql [.str "@", child, q.add start (q.til (q.sub stop start))])

/-- From core.py, the compute_slice dispatch over the two index kinds. -/
def compute_slice : SliceIx → QExpr → QExpr → Bool → QExpr
  | .idx i, child, nr, isrec => compute_slice_int i child nr isrec
  | .rng a b, child, nr, _ => compute_slice_rng a b child nr

/-- From core.py, compute_up for Slice: exactly one slice dimension is
allowed; the single index is dispatched to compute_slice together with the
child's row count fragment. -/
def slice_compute_up (index : List SliceIx) (data : QExpr) (isrec : Bool) :
    Except QError QExpr :=
  match index with
  | [i] => .ok (compute_slice i data (nrowsQ data) isrec)
  | _ => .error (.unsupported "only single slice allowed")

/-- Modelled from the spec: scalar evaluation of the arithmetic fragment of
the target language that the translator emits.  The ampersand is two-argument
min (stated in core.py's own comment), mod is integer modulus, the long cast
is the identity on integers; any other fragment is looked up in the
environment env, which assigns values to opaque fragments such as row counts
and field references. -/
def qeval (env : QExpr → Option Int) : QExpr → Option Int
  | .num n => some n
  | .list (.cons (.atom "&") (.cons a (.cons b .nil))) =>
    match qeval env a, qeval env b with
    | some x, some y => some (min x y)
    | _, _ => none
  | .list (.cons (.atom "+") (.cons a (.cons b .nil))) =>
    match qeval env a, qeval env b with
    | some x, some y => some (x + y)
    | _, _ => none
  | .list (.cons (.atom "-") (.cons a (.cons b .nil))) =>
    match qeval env a, qeval env b with
    | some x, some y => some (x - y)
    | _, _ => none
  | .list (.cons (.atom "mod") (.cons a (.cons b .nil))) =>
    match qeval env a, qeval env b with
    | some x, some y => some (x % y)
    | _, _ => none
  | .list (.cons (.atom "long") (.cons a .nil)) => qeval env a
  | e => env e
termination_by structural e => e

/-- Modelled from the spec: vector evaluation of the emitted index
expressions.  til n is the list 0 up to n excluded, and adding a scalar to a
vector broadcasts. -/
def qevalV (env : QExpr → Option Int) : QExpr → Option (List Int)
  | .list (.cons (.atom "til") (.cons a .nil)) =>
    match qeval env a with
    | some n => some ((List.range n.toNat).map (fun k => (k : Int)))
    | none => none
  | .list (.cons (.atom "+") (.cons a (.cons b .nil))) =>
    match qeval env a, qevalV env b with
    | some x, some v => some (v.map (fun y => x + y))
    | _, _ => none
  | _ => none

/-- A host-language datetime value: the date plus its time-of-day fields.
Python datetime.date values are represented with all time fields zero. -/
structure DateTimeV : Type where
  year : Nat
  month : Nat
  day : Nat
  hour : Nat
  minute : Nat
  second : Nat
  microsecond : Nat
  deriving DecidableEq

/-- Zero-padded two-digit rendering (strftime %m, %d, %H, %M, %S). -/
def pad2 (n : Nat) : String := if n < 10 then "0" ++ toString n else toString n

/-- Zero-padded four-digit rendering (strftime %Y). -/
def pad4 (n : Nat) : String :=
  if n < 10 then "000" ++ toString n
  else if n < 100 then "00" ++ toString n
  else if n < 1000 then "0" ++ toString n
  else toString n

/-- Zero-padded six-digit rendering (strftime %f). -/
def pad6 (n : Nat) : String :=
  if n < 10 then "00000" ++ toString n
  else if n < 100 then "0000" ++ toString n
  else if n < 1000 then "000" ++ toString n
  else if n < 10000 then "00" ++ toString n
  else if n < 100000 then "0" ++ toString n
  else toString n

/-- The fixed-width date literal form %Y.%m.%d used by into(q.Atom, date). -/
def fmtDate (d : DateTimeV) : String :=
  pad4 d.year ++ "." ++ pad2 d.month ++ "." ++ pad2 d.day

/-- The fixed-width datetime literal form %Y.%m.%dD%H:%M:%S.%f000 used by
into(q.Atom, datetime). -/
def fmtDateTime (d : DateTimeV) : String :=
  fmtDate d ++ "D" ++ pad2 d.hour ++ ":" ++ pad2 d.minute ++ ":" ++ pad2 d.second
    ++ "." ++ pad6 d.microsecond ++ "000"

/-- The midnight test of into(q.Atom, datetime): pd.Timestamp(d) equals
pd.Timestamp(d.date()) exactly when the time-of-day component is zero. -/
def isMidnight (d : DateTimeV) : Bool :=
  d.hour == 0 && d.minute == 0 && d.second == 0 && d.microsecond == 0

/-- From core.py, into(q.Atom, date): the bare fixed-width date literal. -/
def into_atom_date (d : DateTimeV) : QExpr := .atom (fmtDate d)

/-- From core.py, into(q.Atom, datetime): a datetime at exactly midnight is
narrowed to the bare date literal, otherwise the full fixed-width datetime
literal is produced. -/
def into_atom_datetime (d : DateTimeV) : QExpr :=
  if isMidnight d then into_atom_date d else .atom (fmtDateTime d)

/-- A host-language literal handed to qify: a string, a date, a datetime, or
any other value (which passes through untouched). -/
inductive PyVal : Type where
  | pystr (s : String)
  | pydate (d : DateTimeV)
  | pydatetime (d : DateTimeV)
  | other (e : QExpr)

/-- From core.py, qify: a string is first attempted as a timestamp literal
(pd.Timestamp, modelled from the spec as the parse parameter since pandas is
external) and becomes a one-element symbol list on parse failure; date and
datetime values go through the into coercions; everything else passes
through. -/
def qify (parse : String → Option DateTimeV) : PyVal → QExpr
  | .pystr s =>
    match parse s with
    | some d => into_atom_datetime d
    | none => .list (ql [.symbol s false false []])
  | .pydate d => into_atom_date d
  | .pydatetime d => into_atom_datetime d
  | .other e => e

/-- Whether the first dotted component of a name equals the scope t. -/
def matchesScope (s t : String) : Bool :=
  match splitOnce s with
  | some (a, _) => a == t
  | none => false

/-- The name produced by one application of compute_atom to a name. -/
def stripName (s t : String) : String :=
  match splitOnce s with
  | some (a, b) => if a = t then b else s
  | none => s

/-- A name is stable when stripping it once leaves nothing that still starts
with the scope prefix; names of the form t.t.y are exactly the unstable
ones. -/
def nameOK (s t : String) : Bool := !(matchesScope (stripName s t) t)

mutual

/-- Fragments on which symbol substitution is idempotent: no List node has
exactly one element (the get unwrapping in desubs rewraps those), and every
atom name is stable under a second strip. -/
def tame (e : QExpr) (t : String) : Bool :=
  match e with
  | .atom s => nameOK s t
  | .symbol s _ _ _ => nameOK s t
  | .bool _ => true
  | .num _ => true
  | .str _ => true
  | .list xs => (xs.length != 1) && tameL xs t
  | .dict ps => tameP ps t
  | .select c k g a => tame c t && tame k t && tame g t && tame a t
termination_by structural e

def tameL (xs : QExprList) (t : String) : Bool :=
  match xs with
  | .nil => true
  | .cons x xs => tame x t && tameL xs t
termination_by structural xs

def tameP (ps : QPairList) (t : String) : Bool :=
  match ps with
  | .nil => true
  | .cons k v ps => tame k t && tame v t && tameP ps t
termination_by structural ps

end

/-- The normalized start bound exactly as the slice claim states the
normalization: a missing start defaults to 0, a negative start is normalized
by adding the row count, any other explicit start is kept. -/
def c4start (a : Option Int) (r : Int) : Int :=
  match a with
  | none => 0
  | some i => if i < 0 then i + r else i

/-- The normalized stop bound of the amended slice claim: a missing stop or
an explicit stop of zero defaults to the row count, a negative stop is
normalized by adding the row count, any other explicit stop is kept.  The
unamended claim would drop the zero case. -/
def c4stop (b : Option Int) (r : Int) : Int :=
  match b with
  | none => r
  | some i => if i = 0 then r else if i < 0 then i + r else i

theorem stripName_of_not_matches (s t : String) (h : matchesScope s t = false) :
    stripName s t = s := by
  simp only [matchesScope] at h
  simp only [stripName]
  cases hs : splitOnce s with
  | none => rfl
  | some ab =>
    obtain ⟨a, b⟩ := ab
    rw [hs] at h
    simp only [beq_eq_false_iff_ne, ne_eq] at h
    simp [h]

theorem nameOK_strip (s t : String) (h : nameOK s t = true) :
    nameOK (stripName s t) t = true := by
  unfold nameOK at h ⊢
  simp only [Bool.not_eq_true'] at h ⊢
  rw [stripName_of_not_matches _ _ h]
  exact h

theorem compute_atom_atom_eq (s t : String) :
    compute_atom (.atom s) t = .atom (stripName s t) := by
  simp only [compute_atom, stripName]
  cases hs : splitOnce s with
  | none => rfl
  | some ab =>
    obtain ⟨a, b⟩ := ab
    by_cases hat : a = t <;> simp [hat]

theorem compute_atom_symbol_eq (s t : String) (p sp : Bool) (f : List String) :
    compute_atom (.symbol s p sp f) t =
      if matchesScope s t = true then .symbol (stripName s t) false false []
      else .symbol s p sp f := by
  simp only [compute_atom, matchesScope, stripName]
  cases hs : splitOnce s with
  | none => rfl
  | some ab =>
    obtain ⟨a, b⟩ := ab
    by_cases hat : a = t <;> simp [hat]

theorem desubsItems_length (xs : QExprList) (t : String) :
    (desubsItems xs t).length = xs.length := by
  match xs with
  | .nil => rfl
  | .cons x xs =>
    simp only [desubsItems, QExprList.length]
    rw [desubsItems_length xs t]
termination_by structural xs

theorem get_of_length_ne_one (xs : QExprList) (h : xs.length ≠ 1) :
    get (.list xs) = .list xs := by
  match xs with
  | .nil => rfl
  | .cons x .nil => simp [QExprList.length] at h
  | .cons x (.cons y ys) => rfl

theorem desubsList_length (xs : QExprList) (t : String) :
    (desubsList xs t).length = xs.length := by
  match xs with
  | .nil => rfl
  | .cons x xs =>
    simp only [desubsList, QExprList.length]
    rw [desubsList_length xs t]
termination_by structural xs

theorem nameOK_not_matches (s t : String) (h : nameOK s t = true) :
    matchesScope (stripName s t) t = false := by
  simpa [nameOK] using h

theorem desubs_atom_eq (s t : String) :
    desubs (.atom s) t = .atom (stripName s t) := by
  simp only [desubs]
  rw [compute_atom_atom_eq]

theorem desubs_symbol_eq (s t : String) (p sp : Bool) (f : List String) :
    desubs (.symbol s p sp f) t =
      if matchesScope s t = true then .symbol (stripName s t) false false []
      else .symbol s p sp f := by
  simp only [desubs]
  rw [compute_atom_symbol_eq]

theorem desubsItem_atom_eq (s t : String) :
    desubsItem (.atom s) t = .atom (stripName s t) := by
  simp only [desubsItem]
  rw [compute_atom_atom_eq]

theorem desubsItem_symbol_eq (s t : String) (p sp : Bool) (f : List String) :
    desubsItem (.symbol s p sp f) t =
      if matchesScope s t = true then .symbol (stripName s t) false false []
      else .symbol s p sp f := by
  simp only [desubsItem]
  rw [compute_atom_symbol_eq]

theorem tame_atom_strip (s t : String) (h : nameOK s t = true) :
    tame (.atom (stripName s t)) t = true := by
  simp only [tame]
  exact nameOK_strip s t h

theorem tame_symbol_strip (s t : String) (p sp : Bool) (f : List String)
    (h : nameOK s t = true) :
    tame (if matchesScope s t = true then QExpr.symbol (stripName s t) false false []
      else QExpr.symbol s p sp f) t = true := by
  by_cases hc : matchesScope s t = true
  · simp only [hc, if_true, tame]
    exact nameOK_strip s t h
  · simp only [hc, if_false, tame]
    simpa [tame] using h

mutual

theorem tame_desubs (e : QExpr) (t : String) (h : tame e t = true) :
    tame (desubs e t) t = true := by
  match e with
  | .atom s =>
    rw [desubs_atom_eq]
    exact tame_atom_strip s t (by simpa [tame] using h)
  | .symbol s p sp f =>
    rw [desubs_symbol_eq]
    exact tame_symbol_strip s t p sp f (by simpa [tame] using h)
  | .bool b => simpa only [desubs] using h
  | .num n => simpa only [desubs] using h
  | .str s => simpa only [desubs] using h
  | .list xs =>
    simp only [tame, Bool.and_eq_true, bne_iff_ne, ne_eq] at h
    obtain ⟨h1, h2⟩ := h
    simp only [desubs]
    rw [get_of_length_ne_one _ (by rw [desubsItems_length]; exact h1)]
    simp only [tame, Bool.and_eq_true, bne_iff_ne, ne_eq]
    exact ⟨by rw [desubsItems_length]; exact h1, tameL_desubsItems xs t h2⟩
  | .dict ps =>
    simp only [tame] at h
    simp only [desubs, tame]
    exact tameP_desubsPairs ps t h
  | .select c k g a =>
    simp only [tame, Bool.and_eq_true] at h
    obtain ⟨⟨⟨h1, h2⟩, h3⟩, h4⟩ := h
    simp only [desubs, tame, Bool.and_eq_true]
    exact ⟨⟨⟨tame_desubsItem c t h1, tame_desubsItem k t h2⟩,
      tame_desubsItem g t h3⟩, tame_desubsItem a t h4⟩
termination_by structural e

theorem tame_desubsItem (e : QExpr) (t : String) (h : tame e t = true) :
    tame (desubsItem e t) t = true := by
  match e with
  | .atom s =>
    rw [desubsItem_atom_eq]
    exact tame_atom_strip s t (by simpa [tame] using h)
  | .symbol s p sp f =>
    rw [desubsItem_symbol_eq]
    exact tame_symbol_strip s t p sp f (by simpa [tame] using h)
  | .bool b => simpa only [desubsItem] using h
  | .num n => simpa only [desubsItem] using h
  | .str s => simpa only [desubsItem] using h
  | .select c k g a => simpa only [desubsItem] using h
  | .list xs =>
    simp only [tame, Bool.and_eq_true, bne_iff_ne, ne_eq] at h
    obtain ⟨h1, h2⟩ := h
    simp only [desubsItem, tame, Bool.and_eq_true, bne_iff_ne, ne_eq]
    exact ⟨by rw [desubsList_length]; exact h1, tameL_desubsList xs t h2⟩
  | .dict ps =>
    simp only [tame] at h
    simp only [desubsItem, tame]
    exact tameP_desubsPairs ps t h
termination_by structural e

theorem tameL_desubsItems (xs : QExprList) (t : String) (h : tameL xs t = true) :
    tameL (desubsItems xs t) t = true := by
  match xs with
  | .nil => simpa only [desubsItems] using h
  | .cons x xs =>
    simp only [tameL, Bool.and_eq_true] at h
    simp only [desubsItems, tameL, Bool.and_eq_true]
    exact ⟨tame_desubsItem x t h.1, tameL_desubsItems xs t h.2⟩
termination_by structural xs

theorem tameL_desubsList (xs : QExprList) (t : String) (h : tameL xs t = true) :
    tameL (desubsList xs t) t = true := by
  match xs with
  | .nil => simpa only [desubsList] using h
  | .cons x xs =>
    simp only [tameL, Bool.and_eq_true] at h
    simp only [desubsList, tameL, Bool.and_eq_true]
    exact ⟨tame_desubs x t h.1, tameL_desubsList xs t h.2⟩
termination_by structural xs

theorem tameP_desubsPairs (ps : QPairList) (t : String) (h : tameP ps t = true) :
    tameP (desubsPairs ps t) t = true := by
  match ps with
  | .nil => simpa only [desubsPairs] using h
  | .cons k v ps =>
    simp only [tameP, Bool.and_eq_true] at h
    obtain ⟨⟨h1, h2⟩, h3⟩ := h
    simp only [desubsPairs, tameP, Bool.and_eq_true]
    exact ⟨⟨tame_desubs k t h1, tame_desubs v t h2⟩, tameP_desubsPairs ps t h3⟩
termination_by structural ps

end

mutual

theorem desubs_twice (e : QExpr) (t : String) (h : tame e t = true) :
    desubs (desubs e t) t = desubs e t := by
  match e with
  | .atom s =>
    have hOK : nameOK s t = true := by simpa [tame] using h
    have hm : matchesScope (stripName s t) t = false := nameOK_not_matches s t hOK
    rw [desubs_atom_eq, desubs_atom_eq, stripName_of_not_matches _ _ hm]
  | .symbol s p sp f =>
    have hOK : nameOK s t = true := by simpa [tame] using h
    have hm : matchesScope (stripName s t) t = false := nameOK_not_matches s t hOK
    by_cases hc : matchesScope s t = true
    · rw [desubs_symbol_eq, if_pos hc, desubs_symbol_eq, hm]
      simp
    · rw [desubs_symbol_eq, if_neg hc, desubs_symbol_eq, if_neg hc]
  | .bool b => simp only [desubs]
  | .num n => simp only [desubs]
  | .str s => simp only [desubs]
  | .list xs =>
    simp only [tame, Bool.and_eq_true, bne_iff_ne, ne_eq] at h
    obtain ⟨h1, h2⟩ := h
    have e1 : desubs (.list xs) t = .list (desubsItems xs t) := by
      simp only [desubs]
      exact get_of_length_ne_one _ (by rw [desubsItems_length]; exact h1)
    rw [e1]
    have e2 : desubs (.list (desubsItems xs t)) t
        = .list (desubsItems (desubsItems xs t) t) := by
      simp only [desubs]
      exact get_of_length_ne_one _ (by rw [desubsItems_length, desubsItems_length]; exact h1)
    rw [e2, desubsItems_twice xs t h2]
  | .dict ps =>
    simp only [tame] at h
    simp only [desubs]
    rw [desubsPairs_twice ps t h]
  | .select c k g a =>
    simp only [tame, Bool.and_eq_true] at h
    obtain ⟨⟨⟨h1, h2⟩, h3⟩, h4⟩ := h
    simp only [desubs]
    rw [desubsItem_twice c t h1, desubsItem_twice k t h2, desubsItem_twice g t h3,
      desubsItem_twice a t h4]
termination_by structural e

theorem desubsItem_twice (e : QExpr) (t : String) (h : tame e t = true) :
    desubsItem (desubsItem e t) t = desubsItem e t := by
  match e with
  | .atom s =>
    have hOK : nameOK s t = true := by simpa [tame] using h
    have hm : matchesScope (stripName s t) t = false := nameOK_not_matches s t hOK
    rw [desubsItem_atom_eq, desubsItem_atom_eq, stripName_of_not_matches _ _ hm]
  | .symbol s p sp f =>
    have hOK : nameOK s t = true := by simpa [tame] using h
    have hm : matchesScope (stripName s t) t = false := nameOK_not_matches s t hOK
    by_cases hc : matchesScope s t = true
    · rw [desubsItem_symbol_eq, if_pos hc, desubsItem_symbol_eq, hm]
      simp
    · rw [desubsItem_symbol_eq, if_neg hc, desubsItem_symbol_eq, if_neg hc]
  | .bool b => simp only [desubsItem]
  | .num n => simp only [desubsItem]
  | .str s => simp only [desubsItem]
  | .select c k g a => simp only [desubsItem]
  | .list xs =>
    simp only [tame, Bool.and_eq_true, bne_iff_ne, ne_eq] at h
    obtain ⟨h1, h2⟩ := h
    simp only [desubsItem]
    rw [desubsList_twice xs t h2]
  | .dict ps =>
    simp only [tame] at h
    simp only [desubsItem]
    rw [desubsPairs_twice ps t h]
termination_by structural e

theorem desubsItems_twice (xs : QExprList) (t : String) (h : tameL xs t = true) :
    desubsItems (desubsItems xs t) t = desubsItems xs t := by
  match xs with
  | .nil => simp only [desubsItems]
  | .cons x xs =>
    simp only [tameL, Bool.and_eq_true] at h
    simp only [desubsItems]
    rw [desubsItem_twice x t h.1, desubsItems_twice xs t h.2]
termination_by structural xs

theorem desubsList_twice (xs : QExprList) (t : String) (h : tameL xs t = true) :
    desubsList (desubsList xs t) t = desubsList xs t := by
  match xs with
  | .nil => simp only [desubsList]
  | .cons x xs =>
    simp only [tameL, Bool.and_eq_true] at h
    simp only [desubsList]
    rw [desubs_twice x t h.1, desubsList_twice xs t h.2]
termination_by structural xs

theorem desubsPairs_twice (ps : QPairList) (t : String) (h : tameP ps t = true) :
    desubsPairs (desubsPairs ps t) t = desubsPairs ps t := by
  match ps with
  | .nil => simp only [desubsPairs]
  | .cons k v ps =>
    simp only [tameP, Bool.and_eq_true] at h
    obtain ⟨⟨h1, h2⟩, h3⟩ := h
    simp only [desubsPairs]
    rw [desubs_twice k t h1, desubs_twice v t h2, desubsPairs_twice ps t h3]
termination_by structural ps

end

theorem qeval_num (env : QExpr → Option Int) (n : Int) :
    qeval env (.num n) = some n := rfl

theorem qeval_and_some (env : QExpr → Option Int) (a b : QExpr) (x y : Int)
    (ha : qeval env a = some x) (hb : qeval env b = some y) :
    qeval env (q.and_ a b) = some (min x y) := by
  have e : qeval env (q.and_ a b) =
      match qeval env a, qeval env b with
      | some x, some y => some (min x y)
      | _, _ => none := rfl
  rw [e, ha, hb]

theorem qeval_add_some (env : QExpr → Option Int) (a b : QExpr) (x y : Int)
    (ha : qeval env a = some x) (hb : qeval env b = some y) :
    qeval env (q.add a b) = some (x + y) := by
  have e : qeval env (q.add a b) =
      match qeval env a, qeval env b with
      | some x, some y => some (x + y)
      | _, _ => none := rfl
  rw [e, ha, hb]

theorem qeval_sub_some (env : QExpr → Option Int) (a b : QExpr) (x y : Int)
    (ha : qeval env a = some x) (hb : qeval env b = some y) :
    qeval env (q.sub a b) = some (x - y) := by
  have e : qeval env (q.sub a b) =
      match qeval env a, qeval env b with
      | some x, some y => some (x - y)
      | _, _ => none := rfl
  rw [e, ha, hb]

theorem qeval_mod_some (env : QExpr → Option Int) (a b : QExpr) (x y : Int)
    (ha : qeval env a = some x) (hb : qeval env b = some y) :
    qeval env (q.mod a b) = some (x % y) := by
  have e : qeval env (q.mod a b) =
      match qeval env a, qeval env b with
      | some x, some y => some (x % y)
      | _, _ => none := rfl
  rw [e, ha, hb]

theorem qeval_long_eq (env : QExpr → Option Int) (a : QExpr) :
    qeval env (q.long a) = qeval env a := rfl

theorem qeval_count_env (env : QExpr → Option Int) (x : QExpr) :
    qeval env (q.count x) = env (q.count x) := rfl

theorem qevalV_til_some (env : QExpr → Option Int) (a : QExpr) (n : Int)
    (ha : qeval env a = some n) :
    qevalV env (q.til a) = some ((List.range n.toNat).map (fun k => (k : Int))) := by
  have e : qevalV env (q.til a) =
      match qeval env a with
      | some n => some ((List.range n.toNat).map (fun k => (k : Int)))
      | none => none := rfl
  rw [e, ha]

theorem qevalV_add_some (env : QExpr → Option Int) (a b : QExpr) (x : Int)
    (v : List Int) (ha : qeval env a = some x) (hb : qevalV env b = some v) :
    qevalV env (q.add a b) = some (v.map (fun y => x + y)) := by
  have e : qevalV env (q.add a b) =
      match qeval env a, qevalV env b with
      | some x, some v => some (v.map (fun y => x + y))
      | _, _ => none := rfl
  rw [e, ha, hb]

/-- Claim C3, counterexample: symbol substitution is not idempotent for every
fragment.  On the fragment List(List(Atom x)) the first pass unwraps the
outer one-element List (the get call in desubs) and a second pass then
unwraps the remaining one-element List; and on the symbol t.t.name one pass
leaves t.name, which still carries the scope prefix, so a second pass strips
again.  In both cases applying desubs twice differs from applying it once. -/
theorem c3_counterexample :
    desubs (desubs (.list (ql [.list (ql [.atom "x"])])) "t") "t"
      ≠ desubs (.list (ql [.list (ql [.atom "x"])])) "t" ∧
    desubs (desubs (.symbol "t.t.name" false false []) "t") "t"
      ≠ desubs (.symbol "t.t.name" false false []) "t" := by
  exact ⟨by decide, by decide⟩

/-- Claim C3 (amended): symbol substitution is idempotent on every fragment
in which no List node has exactly one element and every symbol name is stable
under a second prefix strip (no name of the form s.s.y): for such fragments
strip_scope(strip_scope(f, s), s) equals strip_scope(f, s). -/
theorem c3_desubs_idempotent (f : QExpr) (s : String) (h : tame f s = true) :
    desubs (desubs f s) s = desubs f s :=
  desubs_twice f s h

/-- Claim C3, witness: a representative grouped-select fragment over table t
with a t.name reference is tame, and on it the amended idempotence theorem
applies. -/
theorem c3_witness :
    tame (.select (.symbol "t" false false ["name"]) (.list (ql []))
      (.dict (qp [(.symbol "name" false false [], .symbol "t.name" false false [])]))
      (.dict (qp []))) "t" = true ∧
    desubs (desubs (.select (.symbol "t" false false ["name"]) (.list (ql []))
      (.dict (qp [(.symbol "name" false false [], .symbol "t.name" false false [])]))
      (.dict (qp []))) "t") "t"
      = desubs (.select (.symbol "t" false false ["name"]) (.list (ql []))
        (.dict (qp [(.symbol "name" false false [], .symbol "t.name" false false [])]))
        (.dict (qp []))) "t" :=
  ⟨by decide, c3_desubs_idempotent _ "t" (by decide)⟩

/-- Claim C1: the Head translation clamps the requested count with the
child's row count fragment (the ampersand, two-argument min) instead of
issuing the raw count, and under the modelled q semantics the clamped count
evaluates to min of the request and the row count; a partitioned child gets
the partition-aware take over til of the clamped count, any other child gets
the ordinary take of the clamped count. -/
theorem c1_head_clamped_take (n r : Int) (data : QExpr) (env : QExpr → Option Int)
    (h : qeval env (nrowsQ data) = some r) :
    head_compute_up n data =
      (if is_partitioned data then
        q.partake data (q.til (q.and_ (.num n) (nrowsQ data)))
      else q.take (q.and_ (.num n) (nrowsQ data)) data) ∧
    qeval env (q.and_ (.num n) (nrowsQ data)) = some (min n r) := by
  constructor
  · rfl
  · exact qeval_and_some env _ _ n r (qeval_num env n) h

/-- Claim C1, witness: a partitioned table with ten rows and a requested head
of three translates to the partition-aware take whose count evaluates to
three. -/
theorem c1_witness :
    qeval
      (fun e => if e = q.count (.symbol "t" false false []) then some 10 else none)
      (nrowsQ (.symbol "t" true false ["a"])) = some 10 ∧
    head_compute_up 3 (.symbol "t" true false ["a"]) =
      q.partake (.symbol "t" true false ["a"])
        (q.til (q.and_ (.num 3) (nrowsQ (.symbol "t" true false ["a"])))) ∧
    qeval
      (fun e => if e = q.count (.symbol "t" false false []) then some 10 else none)
      (q.and_ (.num 3) (nrowsQ (.symbol "t" true false ["a"]))) = some 3 := by
  have h := c1_head_clamped_take 3 10 (.symbol "t" true false ["a"])
    (fun e => if e = q.count (.symbol "t" false false []) then some 10 else none)
    (by decide)
  exact ⟨by decide, by simpa using h.1, h.2.trans (by decide)⟩

/-- Claim C5: a join whose kind is not inner, or whose left and right key
column names differ, fails fast with the unsupported-operation error and
produces no translation; an inner join on identically named columns produces
the equi-join primitive over the shared key column list and the two
translated operands in left-right order. -/
theorem c5_join_guard (how : String) (onl onr : List String) (lhs rhs : QExpr) :
    (how ≠ "inner" →
      join_compute_up how onl onr lhs rhs
        = .error (.unsupported "only inner joins supported")) ∧
    (how = "inner" → onl ≠ onr →
      join_compute_up how onl onr lhs rhs
        = .error (.unsupported "can only join on same named columns")) ∧
    (how = "inner" → onl = onr →
      join_compute_up how onl onr lhs rhs
        = .ok (.list (ql [.str "ej", q.symlist onl, lhs, rhs]))) := by
  refine ⟨fun h => ?_, fun h1 h2 => ?_, fun h1 h2 => ?_⟩
  · simp [join_compute_up, h]
  · simp [join_compute_up, h1, h2]
  · simp [join_compute_up, h1, h2]

/-- Claim C5, witness: an outer join errors, an inner join on differently
named columns errors, and an inner join on a shared column name translates to
the equi-join primitive. -/
theorem c5_witness :
    join_compute_up "outer" ["a"] ["a"] (.symbol "l" false false [])
        (.symbol "r" false false [])
      = .error (.unsupported "only inner joins supported") ∧
    join_compute_up "inner" ["a"] ["b"] (.symbol "l" false false [])
        (.symbol "r" false false [])
      = .error (.unsupported "can only join on same named columns") ∧
    join_compute_up "inner" ["a"] ["a"] (.symbol "l" false false [])
        (.symbol "r" false false [])
      = .ok (.list (ql [.str "ej", q.symlist ["a"], .symbol "l" false false [],
          .symbol "r" false false []])) :=
  ⟨(c5_join_guard "outer" ["a"] ["a"] _ _).1 (by decide),
    (c5_join_guard "inner" ["a"] ["b"] _ _).2.1 rfl (by decide),
    (c5_join_guard "inner" ["a"] ["a"] _ _).2.2 rfl rfl⟩

/-- Claim C6: the Minute translation is the minute field of the datum cast to
long and taken modulo 60 (bypassing any native minute accessor), and under
the modelled semantics it evaluates to the raw minute integer modulo 60. -/
theorem c6_minute_mod60 (data : QExpr) (env : QExpr → Option Int) (m : Int)
    (h : qeval env (qindex data "minute") = some m) :
    minute_compute_up data = q.mod (q.long (qindex data "minute")) (.num 60) ∧
    qeval env (minute_compute_up data) = some (m % 60) := by
  refine ⟨rfl, ?_⟩
  have e : qeval env (minute_compute_up data)
      = qeval env (q.mod (q.long (qindex data "minute")) (.num 60)) := rfl
  rw [e]
  exact qeval_mod_some env _ _ m 60 ((qeval_long_eq env _).trans h) (qeval_num env 60)

/-- Claim C6, witness: a datum whose raw minute integer is 65 translates to
an expression evaluating to 5. -/
theorem c6_witness :
    qeval (fun e => if e = QExpr.symbol "t.minute" false false [] then some 65 else none)
      (qindex (.symbol "t" false false []) "minute") = some 65 ∧
    qeval (fun e => if e = QExpr.symbol "t.minute" false false [] then some 65 else none)
      (minute_compute_up (.symbol "t" false false [])) = some 5 := by
  have h := c6_minute_mod60 (.symbol "t" false false [])
    (fun e => if e = QExpr.symbol "t.minute" false false [] then some 65 else none)
    65 (by decide)
  exact ⟨by decide, h.2.trans (by decide)⟩

/-- Claim C7: a reduction or an element count over any axis other than the
leading axis fails synchronously with the unsupported-operation error; over
the leading axis the reduction translates through the unary-operator table
and the element count translates to the target count primitive. -/
theorem c7_axis_guard (sym : String) (axis : List Nat) (data : QExpr) :
    (axis ≠ [0] →
      reduction_compute_up sym axis data
          = .error (.unsupported "Axis keyword arugment on reductions not supported") ∧
      nelements_compute_down axis data
          = .error (.unsupported "axis == 1 not supported on record types")) ∧
    reduction_compute_up sym [0] data = .ok (q.unop sym data) ∧
    (∃ e, nelements_compute_down [0] data = .ok (q.count e)) := by
  refine ⟨fun h => ⟨?_, ?_⟩, ?_, ?_⟩
  · simp [reduction_compute_up, h]
  · simp [nelements_compute_down, h]
  · simp [reduction_compute_up]
  · by_cases hc : qfields data ≠ [] ∧ isSelect data = false
    · refine ⟨.symbol (sOf data) false false [], ?_⟩
      simp only [nelements_compute_down, nrowsQ, if_pos hc, ne_eq,
        not_true_eq_false, if_false]
    · refine ⟨data, ?_⟩
      simp only [nelements_compute_down, nrowsQ, if_neg hc, ne_eq,
        not_true_eq_false, if_false]

/-- Claim C7, witness: axis 1 errors for both the reduction and the count,
axis 0 translates the reduction through the operator table and the count to
the count primitive of the table symbol. -/
theorem c7_witness :
    reduction_compute_up "sum" [1] (.symbol "t" false false ["a"])
        = .error (.unsupported "Axis keyword arugment on reductions not supported") ∧
    nelements_compute_down [1] (.symbol "t" false false ["a"])
        = .error (.unsupported "axis == 1 not supported on record types") ∧
    reduction_compute_up "sum" [0] (.symbol "t" false false ["a"])
        = .ok (q.unop "sum" (.symbol "t" false false ["a"])) := by
  have h := c7_axis_guard "sum" [1] (.symbol "t" false false ["a"])
  have h0 := c7_axis_guard "sum" [0] (.symbol "t" false false ["a"])
  exact ⟨(h.1 (by decide)).1, (h.1 (by decide)).2, h0.2.1⟩

/-- Claim C8: a slice expression with more than one (or zero) slice
dimensions fails fast with the unsupported-operation error; exactly one slice
dimension is dispatched to the slice translation together with the child's
row count fragment. -/
theorem c8_single_slice_dim (index : List SliceIx) (data : QExpr) (isrec : Bool) :
    (index.length ≠ 1 →
      slice_compute_up index data isrec = .error (.unsupported "only single slice allowed")) ∧
    (∀ i, index = [i] →
      slice_compute_up index data isrec
        = .ok (compute_slice i data (nrowsQ data) isrec)) := by
  constructor
  · intro h
    match index with
    | [] => rfl
    | [i] => simp at h
    | i :: j :: rest => rfl
  · intro i h
    subst h
    rfl

/-- Claim C8, witness: a two-dimensional slice request errors and a
one-dimensional range slice is translated. -/
theorem c8_witness :
    slice_compute_up [SliceIx.idx 0, SliceIx.idx 1] (.symbol "t" false false []) false
      = .error (.unsupported "only single slice allowed") ∧
    slice_compute_up [SliceIx.rng none none] (.symbol "t" false false []) false
      = .ok (compute_slice (SliceIx.rng none none) (.symbol "t" false false [])
          (nrowsQ (.symbol "t" false false [])) false) :=
  ⟨(c8_single_slice_dim [SliceIx.idx 0, SliceIx.idx 1] _ false).1 (by decide),
    (c8_single_slice_dim [SliceIx.rng none none] _ false).2 (SliceIx.rng none none) rfl⟩

/-- Claim C9: literal coercion first attempts a string as a timestamp literal
and falls back to a one-element symbol list on parse failure; a datetime at
exactly midnight is rendered as the bare fixed-width date literal, and a
datetime with a nonzero time of day is rendered in the full fixed-width
datetime literal form. -/
theorem c9_literal_coercion (parse : String → Option DateTimeV) (s : String)
    (d : DateTimeV) :
    (parse s = none → qify parse (.pystr s) = .list (ql [.symbol s false false []])) ∧
    (parse s = some d → qify parse (.pystr s) = into_atom_datetime d) ∧
    (isMidnight d = true → into_atom_datetime d = .atom (fmtDate d)) ∧
    (isMidnight d = false → into_atom_datetime d = .atom (fmtDateTime d)) := by
  refine ⟨fun h => ?_, fun h => ?_, fun h => ?_, fun h => ?_⟩
  · simp [qify, h]
  · simp [qify, h]
  · simp [into_atom_datetime, into_atom_date, h]
  · simp [into_atom_datetime, h]

/-- Claim C9, witness: a parsable midnight timestamp string becomes the bare
date literal 2014.01.02, an unparsable string becomes a one-element symbol
list, and a nonmidnight datetime renders in the full fixed-width datetime
form. -/
theorem c9_witness :
    qify (fun s => if s = "2014-01-02" then some ⟨2014, 1, 2, 0, 0, 0, 0⟩ else none)
        (.pystr "2014-01-02") = .atom "2014.01.02" ∧
    qify (fun s => if s = "2014-01-02" then some ⟨2014, 1, 2, 0, 0, 0, 0⟩ else none)
        (.pystr "Alice") = .list (ql [.symbol "Alice" false false []]) ∧
    into_atom_datetime ⟨2014, 1, 2, 3, 4, 5, 6⟩
        = .atom "2014.01.02D03:04:05.000006000" := by
  have h1 := (c9_literal_coercion
    (fun s => if s = "2014-01-02" then some ⟨2014, 1, 2, 0, 0, 0, 0⟩ else none)
    "2014-01-02" ⟨2014, 1, 2, 0, 0, 0, 0⟩).2.1 (by decide)
  have h2 := (c9_literal_coercion
    (fun s => if s = "2014-01-02" then some ⟨2014, 1, 2, 0, 0, 0, 0⟩ else none)
    "Alice" ⟨2014, 1, 2, 0, 0, 0, 0⟩).1 (by decide)
  have h3 := (c9_literal_coercion
    (fun s => if s = "2014-01-02" then some ⟨2014, 1, 2, 0, 0, 0, 0⟩ else none)
    "Alice" ⟨2014, 1, 2, 3, 4, 5, 6⟩).2.2.2 (by decide)
  exact ⟨h1.trans (by decide), h2, h3.trans (by decide)⟩

/-- Claim C10: an explicit stop bound of zero in a range slice is treated
exactly as a missing stop (it defaults to the row count fragment), and an
explicit start of zero is treated exactly as a missing start; a sample
evaluation shows that a slice from one to an explicit stop of zero over a
five-row table extracts rows one to four (the rest of the table), not the
empty range. -/
theorem c10_zero_stop_defaults :
    (∀ (a : Option Int) (child nrE : QExpr),
      compute_slice_rng a (some 0) child nrE = compute_slice_rng a none child nrE) ∧
    (∀ (b : Option Int) (child nrE : QExpr),
      compute_slice_rng (some 0) b child nrE = compute_slice_rng none b child nrE) ∧
    compute_slice_rng (some 1) (some 0) (.symbol "T" false false [])
        (q.count (.symbol "T" false false []))
      = .list (ql [.str "@", .symbol "T" false false [],
          q.add (.num 1) (q.til (q.sub (q.count (.symbol "T" false false []))
            (.num 1)))]) ∧
    qevalV (fun e => if e = q.count (.symbol "T" false false []) then some 5 else none)
        (q.add (.num 1) (q.til (q.sub (q.count (.symbol "T" false false []))
          (.num 1))))
      = some [1, 2, 3, 4] := by
  refine ⟨fun a child nrE => ?_, fun b child nrE => ?_, by decide, by decide⟩
  · simp [compute_slice_rng]
  · simp [compute_slice_rng]

theorem c4_start_eval (a : Option Int) (r : Int) (nrE : QExpr)
    (env : QExpr → Option Int) (henv : qeval env nrE = some r) :
    qeval env (match a with
      | none => QExpr.num 0
      | some i =>
        if i = 0 then QExpr.num 0
        else if i < 0 then q.add (.num i) nrE else QExpr.num i)
      = some (c4start a r) := by
  rcases a with _ | i
  · simp [c4start, qeval_num]
  · show qeval env (if i = 0 then QExpr.num 0
      else if i < 0 then q.add (.num i) nrE else QExpr.num i) = some (c4start (some i) r)
    by_cases h0 : i = 0
    · subst h0
      norm_num [c4start, qeval_num]
    · by_cases hneg : i < 0
      · rw [if_neg h0, if_pos hneg,
          qeval_add_some env _ _ i r (qeval_num env i) henv]
        simp [c4start, hneg]
      · rw [if_neg h0, if_neg hneg, qeval_num]
        simp [c4start, hneg]

theorem c4_stop_eval (b : Option Int) (r : Int) (nrE : QExpr)
    (env : QExpr → Option Int) (henv : qeval env nrE = some r) :
    qeval env (match b with
      | none => nrE
      | some i =>
        if i = 0 then nrE
        else if i < 0 then q.add (.num i) nrE else QExpr.num i)
      = some (c4stop b r) := by
  rcases b with _ | i
  · simpa [c4stop] using henv
  · show qeval env (if i = 0 then nrE
      else if i < 0 then q.add (.num i) nrE else QExpr.num i) = some (c4stop (some i) r)
    by_cases h0 : i = 0
    · subst h0
      simpa [c4stop] using henv
    · by_cases hneg : i < 0
      · rw [if_neg h0, if_pos hneg,
          qeval_add_some env _ _ i r (qeval_num env i) henv]
        simp [c4stop, hneg, h0]
      · rw [if_neg h0, if_neg hneg, qeval_num]
        simp [c4stop, hneg, h0]

/-- Claim C4 (amended): a range slice translation defaults a missing (or
zero, per the amendment forced by the counterexample) start to 0 and a
missing or zero stop to the row count, independently normalizes negative
bounds by adding the row count, and emits the child applied to start plus til
of stop minus start, whose evaluation is the contiguous index region starting
at the normalized start with length normalized stop minus normalized
start. -/
theorem c4_slice_normalization (a b : Option Int) (r : Int) (child nrE : QExpr)
    (env : QExpr → Option Int) (henv : qeval env nrE = some r) :
    ∃ S T : QExpr,
      compute_slice_rng a b child nrE
        = .list (ql [.str "@", child, q.add S (q.til (q.sub T S))]) ∧
      qeval env S = some (c4start a r) ∧
      qeval env T = some (c4stop b r) ∧
      qevalV env (q.add S (q.til (q.sub T S)))
        = some ((List.range (c4stop b r - c4start a r).toNat).map
            (fun j => c4start a r + (j : Int))) := by
  have hS := c4_start_eval a r nrE env henv
  have hT := c4_stop_eval b r nrE env henv
  refine ⟨_, _, rfl, hS, hT, ?_⟩
  rw [qevalV_add_some env _ _ _ _ hS
    (qevalV_til_some env _ _ (qeval_sub_some env _ _ _ _ hT hS))]
  simp [List.map_map, Function.comp]

/-- Claim C4, counterexample: the unamended claim prescribes that an explicit
stop of 0 stays 0 (it is neither missing nor negative), making the slice
from 1 to 0 the empty region; the translation instead defaults the zero stop
to the row count, and over a five-row table the emitted index expression
evaluates to rows 1 through 4, not the prescribed empty region. -/
theorem c4_counterexample :
    compute_slice_rng (some 1) (some 0) (.symbol "t" false false [])
        (q.count (.symbol "t" false false []))
      = .list (ql [.str "@", .symbol "t" false false [],
          q.add (.num 1) (q.til (q.sub (q.count (.symbol "t" false false []))
            (.num 1)))]) ∧
    qevalV (fun e => if e = q.count (.symbol "t" false false []) then some 5 else none)
        (q.add (.num 1) (q.til (q.sub (q.count (.symbol "t" false false []))
          (.num 1))))
      = some [1, 2, 3, 4] ∧
    some [1, 2, 3, 4]
      ≠ some ((List.range ((0 : Int) - 1).toNat).map (fun j => (1 : Int) + j)) :=
  ⟨by decide, by decide, by decide⟩

/-- Claim C4, witness: the slice from -2 to the end of a five-row table
normalizes the start to 3 and extracts the two trailing rows. -/
theorem c4_witness :
    qeval (fun e => if e = q.count (.symbol "u" false false []) then some 5 else none)
        (q.count (.symbol "u" false false [])) = some 5 ∧
    (∃ S T : QExpr,
      compute_slice_rng (some (-2)) none (.symbol "u" false false [])
          (q.count (.symbol "u" false false []))
        = .list (ql [.str "@", .symbol "u" false false [],
            q.add S (q.til (q.sub T S))]) ∧
      qeval (fun e => if e = q.count (.symbol "u" false false []) then some 5 else none)
          S = some (c4start (some (-2)) 5) ∧
      qeval (fun e => if e = q.count (.symbol "u" false false []) then some 5 else none)
          T = some (c4stop none 5) ∧
      qevalV (fun e => if e = q.count (.symbol "u" false false []) then some 5 else none)
          (q.add S (q.til (q.sub T S)))
        = some ((List.range (c4stop none 5 - c4start (some (-2)) 5).toNat).map
            (fun j => c4start (some (-2)) 5 + (j : Int)))) :=
  ⟨by decide,
    c4_slice_normalization (some (-2)) none 5 (.symbol "u" false false [])
      (q.count (.symbol "u" false false []))
      (fun e => if e = q.count (.symbol "u" false false []) then some 5 else none)
      (by decide)⟩

/-- Claim C2: a group-by over a translated child that is already a Select
reuses that Select's child and constraints slots and produces one flattened
Select whose constraints, grouper and aggregates are populated in the same
node (the child slot is the original underlying table reference, not a
nested Select), and finishes by running symbol substitution with the child's
name as scope; the grouper translation gq and the apply translation aq are
parameters, with aq required to produce a Select (the source reads its
aggregates attribute). -/
theorem c2_by_flattens_select (nm : String) (p sp : Bool) (f : List String)
    (k g a : QExpr) (gname : String) (gq aq : QExpr → QExpr)
    (w x y ag : QExpr)
    (hm : matchesScope nm nm = false)
    (haq : aq (.symbol nm p sp f) = .select w x y ag) :
    by_compute_up (.select (.symbol nm p sp f) k g a) gname gq aq =
      .ok (.select (.symbol nm p sp f)
        (.list (ql [desubs k nm]))
        (.dict (qp [(desubs (.symbol gname false false []) nm,
          desubs (gq (.symbol nm p sp f)) nm)]))
        (desubsItem ag nm)) := by
  simp only [by_compute_up, haq]
  simp only [desubs, desubsItem_symbol_eq, hm, desubsItem, desubsList, desubsPairs,
    ql, qp]
  simp only [compute_atom_symbol_eq, hm]
  simp

/-- Claim C2, witness: a group-by composed with a prior filter over table t
produces the single flattened Select with the filter's constraints reused and
grouper and aggregates in the same node. -/
theorem c2_witness :
    matchesScope "t" "t" = false ∧
    (fun ch => QExpr.select ch (.list (ql [])) (.dict (qp []))
        (.dict (qp [(.symbol "amount" false false [],
          q.unop "sum" (.symbol "t.amount" false false []))])))
      (QExpr.symbol "t" false false ["name", "amount"])
      = QExpr.select (.symbol "t" false false ["name", "amount"]) (.list (ql []))
          (.dict (qp []))
          (.dict (qp [(.symbol "amount" false false [],
            q.unop "sum" (.symbol "t.amount" false false []))])) ∧
    by_compute_up
      (.select (.symbol "t" false false ["name", "amount"])
        (.list (ql [.list (ql [.list (ql [.atom "=",
          .symbol "t.amount" false false [], .num 100])])]))
        (.dict (qp [])) (.dict (qp [])))
      "name"
      (fun _ => QExpr.symbol "t.name" false false [])
      (fun ch => QExpr.select ch (.list (ql [])) (.dict (qp []))
        (.dict (qp [(.symbol "amount" false false [],
          q.unop "sum" (.symbol "t.amount" false false []))])))
      = .ok (.select (.symbol "t" false false ["name", "amount"])
          (.list (ql [desubs (.list (ql [.list (ql [.list (ql [.atom "=",
            .symbol "t.amount" false false [], .num 100])])])) "t"]))
          (.dict (qp [(desubs (.symbol "name" false false []) "t",
            desubs ((fun _ => QExpr.symbol "t.name" false false [])
              (QExpr.symbol "t" false false ["name", "amount"])) "t")]))
          (desubsItem (.dict (qp [(.symbol "amount" false false [],
            q.unop "sum" (.symbol "t.amount" false false []))])) "t")) :=
  ⟨by decide, rfl,
    c2_by_flattens_select "t" false false ["name", "amount"]
      (.list (ql [.list (ql [.list (ql [.atom "=",
        .symbol "t.amount" false false [], .num 100])])]))
      (.dict (qp [])) (.dict (qp [])) "name"
      (fun _ => QExpr.symbol "t.name" false false [])
      (fun ch => QExpr.select ch (.list (ql [])) (.dict (qp []))
        (.dict (qp [(.symbol "amount" false false [],
          q.unop "sum" (.symbol "t.amount" false false []))])))
      (.symbol "t" false false ["name", "amount"]) (.list (ql [])) (.dict (qp []))
      (.dict (qp [(.symbol "amount" false false [],
        q.unop "sum" (.symbol "t.amount" false false []))]))
      (by decide) rfl⟩
